import Mathlib

/-!
# A verification model of `game-docker-wrapper` (`src/main.rs`)

The program is a process supervisor: it spawns a child process with a piped
stdin (`main`, lines 116-122), runs a concurrent task relaying lines from its
own stdin to the child (`input_task`, lines 10-38), waits for SIGTERM
(line 128), then grabs the mutex around the child's stdin — never releasing
it — and writes an optional newline / kill command / newline sequence
(lines 136-157), waits for the child (line 164) and calls `exit(0)`
(line 174).

We embed the concurrent part as a small-step transition system.  A scheduler
chooses `Action`s; each action advances one task by one atomic step and
carries the outcome of any I/O that step performs (write success/failure,
the child's exit status).  The mutex is modelled by a `LockOwner` field:
a task may acquire it only when it is `free`; `input_task` holds it for the
duration of one `write_all` (source line 33), and the shutdown path acquires
it at source line 137 and never gives it back.  All `write_all` calls to the
child's stdin are recorded in a write log; all `eprintln!` calls are recorded
in a stderr log.
-/

set_option autoImplicit false

namespace GameDockerWrapper

/-- The line-terminator byte pushed by `line.push('\n')` (main.rs line 31)
and written by the shutdown sequence (main.rs lines 141, 153). -/
def nl : Char := '\n'

/-- Configuration extracted from the command line (main.rs lines 92-95),
except for the debug flag, which we keep separately because it is consulted
only when printing diagnostics.  `killCommand` is `matches.value_of("kill-command")`,
`newlineBeforeKill` is `!matches.is_present("no-newline-before-kill")`,
`newlineAfterKill` is `!matches.is_present("no-newline-after-kill")`. -/
structure Config where
  killCommand : Option (List Char)
  newlineBeforeKill : Bool
  newlineAfterKill : Bool
  deriving DecidableEq, Repr

/-- How the supervisor's stdin ends after its available lines: tokio's
`next_line` returns `Ok(None)` when the stream closes (main.rs line 26)
or `Err(e)` on a read error (main.rs line 18). -/
inductive StdinEnd where
  | closed
  | ioError (e : List Char)
  deriving DecidableEq, Repr

/-- Owner of the `Mutex<process::ChildStdin>` (main.rs lines 2, 122). -/
inductive LockOwner where
  | free
  | relayTask
  | sequencer
  deriving DecidableEq, Repr

/-- Program counter of `input_task` (main.rs lines 10-38).
`reading` is the `lines.next_line().await` at line 14; `waitingLock p` is
the `child_stdin.lock().await` at line 33 with the line-plus-terminator `p`
pending; `writing p` holds the lock and is about to `write_all`;
`done` is the `return` at lines 20 and 28. -/
inductive RelayPC where
  | reading
  | waitingLock (pending : List Char)
  | writing (pending : List Char)
  | done
  deriving DecidableEq, Repr

/-- Program counter of the main flow after the child is spawned.
`waitSignal` is `signal(...).recv().await` (line 128); `waitLock` is
`child_stdin.lock().await` (line 137); `seqBefore`, `seqCmd`, `seqAfter`
are the three conditional writes (lines 140-157); `waitChild` is
`child.await` (line 164). -/
inductive MainPC where
  | waitSignal
  | waitLock
  | seqBefore
  | seqCmd
  | seqAfter
  | waitChild
  deriving DecidableEq, Repr

/-- One `write_all` to the child's stdin, tagged with which writer issued
it: the relay (main.rs line 33) or the shutdown path (lines 141, 147, 153). -/
inductive WriteEv where
  | relayWrite (bytes : List Char)
  | shutWrite (bytes : List Char)
  deriving DecidableEq, Repr

/-- The bytes of a write event. -/
def WriteEv.bytes : WriteEv → List Char
  | .relayWrite b => b
  | .shutWrite b => b

/-- How the whole process terminated: `exit(n)` with a code, or a Rust
panic (the `unwrap()` at main.rs line 122). -/
inductive ExitKind where
  | code (n : Nat)
  | panicked
  deriving DecidableEq, Repr

/-- Every `eprintln!` in main.rs, identified by call site.
Payloads carry the formatted-in data where a later claim needs it. -/
inductive Diag where
  /-- line 112, guarded by `if debug` -/
  | runningCommand
  /-- line 19, unguarded -/
  | warnReadErr (e : List Char)
  /-- line 27, unguarded -/
  | warnReadClosed
  /-- line 34, unguarded, fatal -/
  | relayWriteErr (e : List Char)
  /-- line 131, guarded by `if debug` -/
  | sigtermKill (cmd : List Char)
  /-- line 132, guarded by `if debug` -/
  | sigtermClean
  /-- lines 142, 148, 153, unguarded, fatal -/
  | killWriteErr (e : List Char)
  /-- line 160, guarded by `if debug` -/
  | waitingForChild
  /-- line 167, guarded by `if debug` -/
  | childStatus (st : Nat)
  /-- line 168, guarded by `if debug` -/
  | childWaitErr (e : List Char)
  /-- line 117, unguarded, fatal -/
  | spawnErr (e : List Char)
  /-- the panic message of `unwrap()` on `None` at line 122, unguarded -/
  | panicMsg
  deriving DecidableEq, Repr

/-- Result of one `write_all(...).await` on the child's stdin:
`ok`, or failure with the error rendered as `e`. -/
inductive WriteRes where
  | ok
  | fail (e : List Char)
  deriving DecidableEq, Repr

/-- Result of `child.await` (main.rs line 164): the child's exit status,
or a wait error. -/
inductive WaitRes where
  | exited (status : Nat)
  | waitErr (e : List Char)
  deriving DecidableEq, Repr

/-- A scheduler step: advance one task by one atomic step, supplying the
outcome of any I/O the step performs.  `sigterm` is the delivery of the
termination signal; `childExit` is `child.await` completing. -/
inductive Action where
  | relayStep (w : WriteRes)
  | sigterm
  | mainStep (w : WriteRes)
  | childExit (r : WaitRes)
  deriving DecidableEq, Repr

/-- The debug-independent part of the program state. -/
structure Core where
  cfg : Config
  /-- lines still available on the supervisor's stdin (already stripped of
  their terminators, as tokio's `lines()` yields them) -/
  stdinLines : List (List Char)
  /-- what `next_line` reports once `stdinLines` is exhausted -/
  stdinEnd : StdinEnd
  relay : RelayPC
  main : MainPC
  lock : LockOwner
  /-- the `write_all` calls performed on the child's stdin, in order -/
  writes : List WriteEv
  /-- set once the process terminates (`exit(..)` or panic); all further
  steps are no-ops -/
  exited : Option ExitKind
  /-- whether `child.await` was reached -/
  waited : Bool
  deriving DecidableEq, Repr

/-- The full program state: the core, the debug flag (main.rs line 92) and
the diagnostics printed to stderr. -/
structure State where
  debug : Bool
  core : Core
  stderr : List Diag
  deriving DecidableEq, Repr

/-- The debug-independent effect of one scheduler step, translated from
main.rs (see the doc comment of each `Action` and PC).  When the process
has already exited, nothing happens. -/
def stepCore (a : Action) (c : Core) : Core :=
  match c.exited with
  | some _ => c
  | none =>
    match a with
    | .relayStep w =>
      match c.relay with
      | .reading =>
        match c.stdinLines with
        | l :: rest =>
          -- lines 14-31: read a line, append '\n'
          { c with relay := .waitingLock (l ++ [nl]), stdinLines := rest }
        | [] =>
          -- lines 16-30: Err / Ok(None) terminate the task
          { c with relay := .done }
      | .waitingLock p =>
        -- line 33: `child_stdin.lock().await` blocks until the mutex is free
        if c.lock = .free then { c with lock := .relayTask, relay := .writing p } else c
      | .writing p =>
        match w with
        | .ok =>
          -- line 33: `write_all` succeeds; the temporary guard is dropped
          { c with writes := c.writes ++ [.relayWrite p], lock := .free, relay := .reading }
        | .fail _ =>
          -- lines 34-35: write failure exits the whole process with code 1
          { c with exited := some (.code 1) }
      | .done => c
    | .sigterm =>
      match c.main with
      | .waitSignal =>
        -- line 128: `recv().await` returns; only the first delivery is
        -- received, later deliveries find no one waiting
        { c with main := .waitLock }
      | _ => c
    | .mainStep w =>
      match c.main with
      | .waitSignal => c
      | .waitLock =>
        -- line 137: acquire the mutex and never release it
        if c.lock = .free then { c with lock := .sequencer, main := .seqBefore } else c
      | .seqBefore =>
        -- lines 140-145
        if c.cfg.newlineBeforeKill then
          match w with
          | .ok => { c with writes := c.writes ++ [.shutWrite [nl]], main := .seqCmd }
          | .fail _ => { c with exited := some (.code 1) }
        else { c with main := .seqCmd }
      | .seqCmd =>
        -- lines 146-151
        match c.cfg.killCommand with
        | some cmd =>
          match w with
          | .ok => { c with writes := c.writes ++ [.shutWrite cmd], main := .seqAfter }
          | .fail _ => { c with exited := some (.code 1) }
        | none => { c with main := .seqAfter }
      | .seqAfter =>
        -- lines 152-157
        if c.cfg.newlineAfterKill then
          match w with
          | .ok => { c with writes := c.writes ++ [.shutWrite [nl]], main := .waitChild }
          | .fail _ => { c with exited := some (.code 1) }
        else { c with main := .waitChild }
      | .waitChild => c
    | .childExit _ =>
      match c.main with
      | .waitChild =>
        -- lines 164-174: whatever `child.await` returned, `exit(0)`
        { c with exited := some (.code 0), waited := true }
      | _ => c

/-- The diagnostics one scheduler step prints to stderr, translated from the
`eprintln!` calls of main.rs; this is the only place the debug flag is read. -/
def stepDiags (a : Action) (dbg : Bool) (c : Core) : List Diag :=
  match c.exited with
  | some _ => []
  | none =>
    match a with
    | .relayStep w =>
      match c.relay with
      | .reading =>
        match c.stdinLines with
        | _ :: _ => []
        | [] =>
          match c.stdinEnd with
          | .closed => [.warnReadClosed]      -- line 27, unconditional
          | .ioError e => [.warnReadErr e]    -- line 19, unconditional
      | .waitingLock _ => []
      | .writing _ =>
        match w with
        | .ok => []
        | .fail e => [.relayWriteErr e]       -- line 34, unconditional
      | .done => []
    | .sigterm =>
      match c.main with
      | .waitSignal =>
        -- lines 129-134
        if dbg then
          match c.cfg.killCommand with
          | some cmd => [.sigtermKill cmd]
          | none => [.sigtermClean]
        else []
      | _ => []
    | .mainStep w =>
      match c.main with
      | .waitSignal => []
      | .waitLock => []
      | .seqBefore =>
        if c.cfg.newlineBeforeKill then
          match w with
          | .ok => []
          | .fail e => [.killWriteErr e]      -- line 142, unconditional
        else []
      | .seqCmd =>
        match c.cfg.killCommand with
        | some _ =>
          match w with
          | .ok => []
          | .fail e => [.killWriteErr e]      -- line 148, unconditional
        | none => []
      | .seqAfter =>
        if c.cfg.newlineAfterKill then
          match w with
          | .ok => if dbg then [.waitingForChild] else []  -- lines 159-161
          | .fail e => [.killWriteErr e]      -- line 153, unconditional
        else if dbg then [.waitingForChild] else []
      | .waitChild => []
    | .childExit r =>
      match c.main with
      | .waitChild =>
        -- lines 165-170: the status / wait error is printed only in debug
        if dbg then
          match r with
          | .exited st => [.childStatus st]
          | .waitErr e => [.childWaitErr e]
        else []
      | _ => []

/-- One scheduler step on the full state. -/
def step (a : Action) (s : State) : State :=
  ⟨s.debug, stepCore a s.core, s.stderr ++ stepDiags a s.debug s.core⟩

/-- Run a whole schedule. -/
def run (s : State) (sched : List Action) : State :=
  sched.foldl (fun t a => step a t) s

/-- The core state right after a successful spawn (main.rs lines 116-128):
relay at its read loop, main waiting for SIGTERM, mutex free, nothing
written, process alive. -/
def initCore (cfg : Config) (L : List (List Char)) (tl : StdinEnd) : Core :=
  { cfg := cfg, stdinLines := L, stdinEnd := tl, relay := .reading,
    main := .waitSignal, lock := .free, writes := [], exited := none,
    waited := false }

/-- The whole program (main.rs `main`), given the outcome of the spawn
(`spawnRes = some e` models `spawn()` failing with error `e`, lines 116-119),
whether `child.stdin.take()` yields a handle (line 122; `unwrap()` panics
otherwise), the supervisor's stdin content, and a schedule for the
concurrent phase.  Before the spawn, `Running command` is printed when
debugging (lines 111-113). -/
def program (dbg : Bool) (cfg : Config) (spawnRes : Option (List Char))
    (stdinObtainable : Bool) (L : List (List Char)) (tl : StdinEnd)
    (sched : List Action) : State :=
  let d0 : List Diag := if dbg then [.runningCommand] else []
  match spawnRes with
  | some e =>
      -- lines 116-119: report and `exit(1)`; nothing else ever runs
      run ⟨dbg, { initCore cfg L tl with exited := some (.code 1) }, d0 ++ [.spawnErr e]⟩ sched
  | none =>
      if stdinObtainable then
        run ⟨dbg, initCore cfg L tl, d0⟩ sched
      else
        -- line 122: `unwrap()` on `None` panics; nothing else ever runs
        run ⟨dbg, { initCore cfg L tl with exited := some .panicked }, d0 ++ [.panicMsg]⟩ sched

/-- The relay's writes among a write log, in order. -/
def relayWrites (ws : List WriteEv) : List (List Char) :=
  ws.filterMap fun w => match w with | .relayWrite b => some b | .shutWrite _ => none

/-- The shutdown path's writes among a write log, in order. -/
def shutWrites (ws : List WriteEv) : List (List Char) :=
  ws.filterMap fun w => match w with | .shutWrite b => some b | .relayWrite _ => none

/-- A relayed line as it reaches the child: the line plus its terminator
(main.rs line 31). -/
def lineOut (l : List Char) : List Char := l ++ [nl]

/-- The complete shutdown sequence for a configuration, as the list of
`write_all` payloads of main.rs lines 140-157: a newline iff
`newlineBeforeKill`, the command iff present, a newline iff
`newlineAfterKill`. -/
def shutdownSeq (cfg : Config) : List (List Char) :=
  (if cfg.newlineBeforeKill then [[nl]] else []) ++
    (match cfg.killCommand with | some cmd => [cmd] | none => []) ++
    (if cfg.newlineAfterKill then [[nl]] else [])

/-- How much of the shutdown sequence has been written when the main flow
is at a given program counter. -/
def shutProgress (cfg : Config) : MainPC → List (List Char)
  | .waitSignal => []
  | .waitLock => []
  | .seqBefore => []
  | .seqCmd => if cfg.newlineBeforeKill then [[nl]] else []
  | .seqAfter =>
      (if cfg.newlineBeforeKill then [[nl]] else []) ++
        (match cfg.killCommand with | some cmd => [cmd] | none => [])
  | .waitChild => shutdownSeq cfg

/-- Whether the main flow has passed the lock acquisition of main.rs
line 137. -/
def mainPast : MainPC → Bool
  | .waitSignal => false
  | .waitLock => false
  | _ => true

/-- The core after a schedule, starting from `c`. -/
def runCore (c : Core) (sched : List Action) : Core :=
  sched.foldl (fun c a => stepCore a c) c

/-- The fatal-error diagnostics: spawn failure (main.rs line 117), relay
write failure (line 34), shutdown write failure (lines 142, 148, 153), and
the abort message of the panic at line 122.  Each accompanies process
termination. -/
def Diag.isFatal : Diag → Bool
  | .relayWriteErr _ => true
  | .killWriteErr _ => true
  | .spawnErr _ => true
  | .panicMsg => true
  | _ => false

/-- The relay's termination warnings (main.rs lines 19 and 27): printed
when the supervisor's stdin errors or closes, which does not terminate the
process. -/
def Diag.isRelayWarn : Diag → Bool
  | .warnReadErr _ => true
  | .warnReadClosed => true
  | _ => false

/-- The sequencer holds the mutex (it never gives it back) and the relay
is not inside its `write_all`. -/
def SeqHolds (c : Core) : Prop :=
  c.lock = .sequencer ∧ ∀ p, c.relay ≠ .writing p

/-- The shutdown sequence is fully written: the main flow is at
`child.await`, the mutex belongs to the sequencer, and the relay is not
inside a write. -/
def Quiesced (c : Core) : Prop :=
  c.main = .waitChild ∧ SeqHolds c

/-- A sample configuration: no kill command, both newlines enabled. -/
def cfgPlain : Config := ⟨none, true, true⟩

/-- A sample state used to instantiate theorems: stdin exhausted, main flow
at `child.await` with the mutex held by the sequencer. -/
def stateAtWait : State :=
  ⟨false,
   { cfg := cfgPlain, stdinLines := [], stdinEnd := .closed,
     relay := .reading, main := .waitChild, lock := .sequencer, writes := [],
     exited := none, waited := false },
   []⟩

/-- A sample state used to instantiate theorems: the relay holds the mutex,
mid-write of the line `hi` plus terminator. -/
def stateMidWrite : State :=
  ⟨false,
   { cfg := cfgPlain, stdinLines := [], stdinEnd := .closed,
     relay := .writing (['h', 'i'] ++ [nl]), main := .waitSignal, lock := .relayTask,
     writes := [], exited := none, waited := false },
   []⟩

/-- A sample schedule: deliver SIGTERM, then drive the main flow through
lock acquisition and the three shutdown steps. -/
def schedShutdown : List Action :=
  [.sigterm, .mainStep .ok, .mainStep .ok, .mainStep .ok, .mainStep .ok]

/-- Book-keeping relating the relay's program counter and the remaining
stdin to the number `w` of lines it has fully forwarded: at `reading`, the
first `w` lines are consumed; at `waitingLock`/`writing`, line `w` (plus
terminator) is pending; at `done`, all lines were forwarded and the stream
ended. -/
def relayState (L : List (List Char)) (w : Nat) : RelayPC → List (List Char) → Prop
  | .reading, rest => rest = L.drop w
  | .waitingLock p, rest => (∃ l, L[w]? = some l ∧ p = lineOut l) ∧ rest = L.drop (w + 1)
  | .writing p, rest => (∃ l, L[w]? = some l ∧ p = lineOut l) ∧ rest = L.drop (w + 1)
  | .done, rest => rest = [] ∧ w = L.length

/-- The global invariant of the concurrent phase, for a run whose stdin
lines are `L`:
* the shutdown path holds the mutex exactly from the acquisition at
  main.rs line 137 on, and it is never returned;
* the relay holds the mutex whenever it is inside its `write_all`;
* the relay's writes so far are exactly the first `w` stdin lines, each
  with its terminator, in order;
* the shutdown path's writes so far are exactly the prefix of the shutdown
  sequence determined by its program counter;
* the write log is all relay writes followed by all shutdown writes. -/
structure Inv (L : List (List Char)) (c : Core) : Prop where
  lockSeq : c.lock = .sequencer ↔ mainPast c.main = true
  writingLock : ∀ p, c.relay = .writing p → c.lock = .relayTask
  relayDecomp : ∃ w, w ≤ L.length ∧ relayWrites c.writes = (L.take w).map lineOut ∧
    relayState L w c.relay c.stdinLines
  shutDecomp : shutWrites c.writes = shutProgress c.cfg c.main
  ordered : c.writes = (relayWrites c.writes).map WriteEv.relayWrite ++
    (shutWrites c.writes).map WriteEv.shutWrite

theorem relayWrites_append_relay (ws : List WriteEv) (p : List Char) :
    relayWrites (ws ++ [.relayWrite p]) = relayWrites ws ++ [p] := by
  simp [relayWrites, List.filterMap_append, List.filterMap_cons]

theorem relayWrites_append_shut (ws : List WriteEv) (b : List Char) :
    relayWrites (ws ++ [.shutWrite b]) = relayWrites ws := by
  simp [relayWrites, List.filterMap_append, List.filterMap_cons]

theorem shutWrites_append_relay (ws : List WriteEv) (p : List Char) :
    shutWrites (ws ++ [.relayWrite p]) = shutWrites ws := by
  simp [shutWrites, List.filterMap_append, List.filterMap_cons]

theorem shutWrites_append_shut (ws : List WriteEv) (b : List Char) :
    shutWrites (ws ++ [.shutWrite b]) = shutWrites ws ++ [b] := by
  simp [shutWrites, List.filterMap_append, List.filterMap_cons]

theorem stepCore_exited (a : Action) (c : Core) {e : ExitKind}
    (h : c.exited = some e) : stepCore a c = c := by
  unfold stepCore
  rw [h]

/-- A frozen process stays frozen and unchanged. -/
theorem run_exited (s : State) (sched : List Action) {e : ExitKind}
    (h : s.core.exited = some e) : (run s sched).core = s.core := by
  induction sched generalizing s with
  | nil => rfl
  | cons a rest ih =>
      show (run (step a s) rest).core = s.core
      have hstep : (step a s).core = s.core := by
        show stepCore a s.core = s.core
        exact stepCore_exited a s.core h
      rw [ih (step a s) (by rw [hstep]; exact h), hstep]

theorem stepCore_cfg (a : Action) (c : Core) : (stepCore a c).cfg = c.cfg := by
  unfold stepCore
  repeat' split
  all_goals rfl

theorem stepCore_stdinEnd (a : Action) (c : Core) :
    (stepCore a c).stdinEnd = c.stdinEnd := by
  unfold stepCore
  repeat' split
  all_goals rfl

theorem run_append (s : State) (l₁ l₂ : List Action) :
    run s (l₁ ++ l₂) = run (run s l₁) l₂ := by
  unfold run
  exact List.foldl_append ..

theorem step_core (a : Action) (s : State) : (step a s).core = stepCore a s.core := rfl

theorem step_debug (a : Action) (s : State) : (step a s).debug = s.debug := rfl

theorem run_debug (s : State) (sched : List Action) : (run s sched).debug = s.debug := by
  induction sched generalizing s with
  | nil => rfl
  | cons a rest ih => exact ih (step a s)

/-- The core of a run depends only on the starting core, not on the debug
flag or the stderr log: `stepCore` never reads them. -/
theorem run_core (s : State) (sched : List Action) :
    (run s sched).core = runCore s.core sched := by
  induction sched generalizing s with
  | nil => rfl
  | cons a rest ih => exact ih (step a s)

/-- Monotonicity of the stderr log. -/
theorem mem_stderr_run (s : State) (sched : List Action) {d : Diag}
    (h : d ∈ s.stderr) : d ∈ (run s sched).stderr := by
  induction sched generalizing s with
  | nil => exact h
  | cons a rest ih =>
      exact ih (step a s) (List.mem_append_left _ h)




theorem ordered_append_shut (ws : List WriteEv) (b : List Char)
    (h : ws = (relayWrites ws).map WriteEv.relayWrite ++ (shutWrites ws).map WriteEv.shutWrite) :
    ws ++ [.shutWrite b] = (relayWrites (ws ++ [.shutWrite b])).map WriteEv.relayWrite ++
      (shutWrites (ws ++ [.shutWrite b])).map WriteEv.shutWrite := by
  rw [relayWrites_append_shut, shutWrites_append_shut, List.map_append]
  conv_lhs => rw [h]
  simp

theorem ordered_append_relay (ws : List WriteEv) (p : List Char)
    (h : ws = (relayWrites ws).map WriteEv.relayWrite ++ (shutWrites ws).map WriteEv.shutWrite)
    (hnil : shutWrites ws = []) :
    ws ++ [.relayWrite p] = (relayWrites (ws ++ [.relayWrite p])).map WriteEv.relayWrite ++
      (shutWrites (ws ++ [.relayWrite p])).map WriteEv.shutWrite := by
  rw [relayWrites_append_relay, shutWrites_append_relay, hnil]
  conv_lhs => rw [h, hnil]
  simp

theorem inv_init (cfg : Config) (L : List (List Char)) (tl : StdinEnd) :
    Inv L (initCore cfg L tl) := by
  refine ⟨?_, ?_, ⟨0, ?_, ?_, ?_⟩, ?_, ?_⟩ <;>
    simp [initCore, mainPast, relayWrites, shutWrites, shutProgress, relayState]

theorem inv_step (L : List (List Char)) (a : Action) (c : Core) (h : Inv L c) :
    Inv L (stepCore a c) := by
  obtain ⟨hLock, hWL, ⟨w, hw, hRW, hRS⟩, hSD, hOrd⟩ := h
  cases hE : c.exited with
  | some e =>
      rw [stepCore_exited a c hE]
      exact ⟨hLock, hWL, ⟨w, hw, hRW, hRS⟩, hSD, hOrd⟩
  | none =>
  cases a with
  | relayStep wr =>
      cases hR : c.relay with
      | reading =>
          rw [hR] at hRS
          simp only [relayState] at hRS
          cases hL : c.stdinLines with
          | nil =>
              have hc : stepCore (.relayStep wr) c = { c with relay := .done } := by
                simp [stepCore, hE, hR, hL]
              rw [hc]
              have hwlen : w = L.length := by
                have hnil : L.drop w = [] := by rw [← hRS, hL]
                have := List.drop_eq_nil_iff.mp hnil
                omega
              refine ⟨hLock, by simp, ⟨w, hw, hRW, ?_⟩, hSD, hOrd⟩
              simp only [relayState]
              exact ⟨hL, hwlen⟩
          | cons l rest =>
              have hc : stepCore (.relayStep wr) c =
                  { c with relay := .waitingLock (l ++ [nl]), stdinLines := rest } := by
                simp [stepCore, hE, hR, hL]
              rw [hc]
              have hdrop : L.drop w = l :: rest := by rw [← hRS, hL]
              have hget : L[w]? = some l := by
                have h0 := List.getElem?_drop L w 0
                rw [hdrop] at h0
                simpa using h0.symm
              have hrest : L.drop (w + 1) = rest := by
                have hdd : L.drop (w + 1) = (L.drop w).drop 1 := by
                  rw [List.drop_drop]
                rw [hdd, hdrop]
                rfl
              refine ⟨hLock, by simp, ⟨w, hw, hRW, ?_⟩, hSD, hOrd⟩
              simp only [relayState]
              exact ⟨⟨l, hget, rfl⟩, hrest.symm⟩
      | waitingLock p =>
          by_cases hf : c.lock = .free
          · have hc : stepCore (.relayStep wr) c =
                { c with lock := .relayTask, relay := .writing p } := by
              simp [stepCore, hE, hR, hf]
            rw [hc]
            rw [hf] at hLock
            have hmainF : mainPast c.main = false := by simpa using hLock
            rw [hR] at hRS
            simp only [relayState] at hRS
            refine ⟨by simp [hmainF], by simp, ⟨w, hw, hRW, ?_⟩, hSD, hOrd⟩
            simp only [relayState]
            exact hRS
          · have hc : stepCore (.relayStep wr) c = c := by
              simp [stepCore, hE, hR, hf]
            rw [hc]
            exact ⟨hLock, hWL, ⟨w, hw, hRW, hRS⟩, hSD, hOrd⟩
      | writing p =>
          have hlockRelay := hWL p hR
          rw [hR] at hRS
          simp only [relayState] at hRS
          obtain ⟨⟨l, hget, hp⟩, hrest⟩ := hRS
          have hmainF : mainPast c.main = false := by
            rw [hlockRelay] at hLock
            simpa using hLock
          cases wr with
          | ok =>
              have hc : stepCore (.relayStep .ok) c =
                  { c with writes := c.writes ++ [.relayWrite p],
                           lock := .free, relay := .reading } := by
                simp [stepCore, hE, hR]
              rw [hc]
              have hshutNil : shutWrites c.writes = [] := by
                rw [hSD]
                cases hm : c.main <;>
                  simp [mainPast, hm] at hmainF ⊢ <;> simp [shutProgress]
              have hwlt : w < L.length := (List.getElem?_eq_some_iff.mp hget).1
              refine ⟨by simp [hmainF], by simp, ⟨w + 1, hwlt, ?_, ?_⟩, ?_, ?_⟩
              · rw [relayWrites_append_relay, hRW, hp]
                rw [List.take_succ, hget]
                simp [lineOut]
              · simp only [relayState]
                exact hrest
              · rw [shutWrites_append_relay, hSD]
              · exact ordered_append_relay c.writes p hOrd hshutNil
          | fail e' =>
              have hc : stepCore (.relayStep (.fail e')) c =
                  { c with exited := some (.code 1) } := by
                simp [stepCore, hE, hR]
              rw [hc]
              refine ⟨hLock, hWL, ⟨w, hw, hRW, ?_⟩, hSD, hOrd⟩
              show relayState L w c.relay c.stdinLines
              rw [hR]
              simp only [relayState]
              exact ⟨⟨l, hget, hp⟩, hrest⟩
      | done =>
          have hc : stepCore (.relayStep wr) c = c := by
            simp [stepCore, hE, hR]
          rw [hc]
          exact ⟨hLock, hWL, ⟨w, hw, hRW, hRS⟩, hSD, hOrd⟩
  | sigterm =>
      cases hM : c.main with
      | waitSignal =>
          have hc : stepCore .sigterm c = { c with main := .waitLock } := by
            simp [stepCore, hE, hM]
          rw [hc]
          rw [hM] at hLock hSD
          refine ⟨by simpa [mainPast] using hLock, hWL, ⟨w, hw, hRW, hRS⟩, ?_, hOrd⟩
          rw [hSD]
          rfl
      | waitLock =>
          have hc : stepCore .sigterm c = c := by simp [stepCore, hE, hM]
          rw [hc]; exact ⟨hLock, hWL, ⟨w, hw, hRW, hRS⟩, hSD, hOrd⟩
      | seqBefore =>
          have hc : stepCore .sigterm c = c := by simp [stepCore, hE, hM]
          rw [hc]; exact ⟨hLock, hWL, ⟨w, hw, hRW, hRS⟩, hSD, hOrd⟩
      | seqCmd =>
          have hc : stepCore .sigterm c = c := by simp [stepCore, hE, hM]
          rw [hc]; exact ⟨hLock, hWL, ⟨w, hw, hRW, hRS⟩, hSD, hOrd⟩
      | seqAfter =>
          have hc : stepCore .sigterm c = c := by simp [stepCore, hE, hM]
          rw [hc]; exact ⟨hLock, hWL, ⟨w, hw, hRW, hRS⟩, hSD, hOrd⟩
      | waitChild =>
          have hc : stepCore .sigterm c = c := by simp [stepCore, hE, hM]
          rw [hc]; exact ⟨hLock, hWL, ⟨w, hw, hRW, hRS⟩, hSD, hOrd⟩
  | mainStep wr =>
      cases hM : c.main with
      | waitSignal =>
          have hc : stepCore (.mainStep wr) c = c := by simp [stepCore, hE, hM]
          rw [hc]; exact ⟨hLock, hWL, ⟨w, hw, hRW, hRS⟩, hSD, hOrd⟩
      | waitLock =>
          by_cases hf : c.lock = .free
          · have hc : stepCore (.mainStep wr) c =
                { c with lock := .sequencer, main := .seqBefore } := by
              simp [stepCore, hE, hM, hf]
            rw [hc]
            rw [hM] at hSD
            refine ⟨by simp [mainPast], ?_, ⟨w, hw, hRW, hRS⟩, ?_, hOrd⟩
            · intro p hp
              have := hWL p hp
              rw [hf] at this
              simp at this
            · rw [hSD]
              rfl
          · have hc : stepCore (.mainStep wr) c = c := by
              simp [stepCore, hE, hM, hf]
            rw [hc]; exact ⟨hLock, hWL, ⟨w, hw, hRW, hRS⟩, hSD, hOrd⟩
      | seqBefore =>
          rw [hM] at hLock hSD
          cases hB : c.cfg.newlineBeforeKill with
          | true =>
              cases wr with
              | ok =>
                  have hc : stepCore (.mainStep .ok) c =
                      { c with writes := c.writes ++ [.shutWrite [nl]],
                               main := .seqCmd } := by
                    simp [stepCore, hE, hM, hB]
                  rw [hc]
                  refine ⟨by simpa [mainPast] using hLock, hWL,
                    ⟨w, hw, by rw [relayWrites_append_shut, hRW], hRS⟩, ?_,
                    ordered_append_shut c.writes [nl] hOrd⟩
                  rw [shutWrites_append_shut, hSD]
                  simp [shutProgress, hB]
              | fail e' =>
                  have hc : stepCore (.mainStep (.fail e')) c =
                      { c with exited := some (.code 1) } := by
                    simp [stepCore, hE, hM, hB]
                  rw [hc]
                  exact ⟨by rw [hM]; exact hLock, hWL, ⟨w, hw, hRW, hRS⟩,
                    by rw [hM]; exact hSD, hOrd⟩
          | false =>
              have hc : stepCore (.mainStep wr) c = { c with main := .seqCmd } := by
                simp [stepCore, hE, hM, hB]
              rw [hc]
              refine ⟨by simpa [mainPast] using hLock, hWL, ⟨w, hw, hRW, hRS⟩, ?_, hOrd⟩
              rw [hSD]
              simp [shutProgress, hB]
      | seqCmd =>
          rw [hM] at hLock hSD
          cases hK : c.cfg.killCommand with
          | some cmd =>
              cases wr with
              | ok =>
                  have hc : stepCore (.mainStep .ok) c =
                      { c with writes := c.writes ++ [.shutWrite cmd],
                               main := .seqAfter } := by
                    simp [stepCore, hE, hM, hK]
                  rw [hc]
                  refine ⟨by simpa [mainPast] using hLock, hWL,
                    ⟨w, hw, by rw [relayWrites_append_shut, hRW], hRS⟩, ?_,
                    ordered_append_shut c.writes cmd hOrd⟩
                  rw [shutWrites_append_shut, hSD]
                  simp [shutProgress, hK]
              | fail e' =>
                  have hc : stepCore (.mainStep (.fail e')) c =
                      { c with exited := some (.code 1) } := by
                    simp [stepCore, hE, hM, hK]
                  rw [hc]
                  exact ⟨by rw [hM]; exact hLock, hWL, ⟨w, hw, hRW, hRS⟩,
                    by rw [hM]; exact hSD, hOrd⟩
          | none =>
              have hc : stepCore (.mainStep wr) c = { c with main := .seqAfter } := by
                simp [stepCore, hE, hM, hK]
              rw [hc]
              refine ⟨by simpa [mainPast] using hLock, hWL, ⟨w, hw, hRW, hRS⟩, ?_, hOrd⟩
              rw [hSD]
              simp [shutProgress, hK]
      | seqAfter =>
          rw [hM] at hLock hSD
          cases hA : c.cfg.newlineAfterKill with
          | true =>
              cases wr with
              | ok =>
                  have hc : stepCore (.mainStep .ok) c =
                      { c with writes := c.writes ++ [.shutWrite [nl]],
                               main := .waitChild } := by
                    simp [stepCore, hE, hM, hA]
                  rw [hc]
                  refine ⟨by simpa [mainPast] using hLock, hWL,
                    ⟨w, hw, by rw [relayWrites_append_shut, hRW], hRS⟩, ?_,
                    ordered_append_shut c.writes [nl] hOrd⟩
                  rw [shutWrites_append_shut, hSD]
                  simp [shutProgress, shutdownSeq, hA]
              | fail e' =>
                  have hc : stepCore (.mainStep (.fail e')) c =
                      { c with exited := some (.code 1) } := by
                    simp [stepCore, hE, hM, hA]
                  rw [hc]
                  exact ⟨by rw [hM]; exact hLock, hWL, ⟨w, hw, hRW, hRS⟩,
                    by rw [hM]; exact hSD, hOrd⟩
          | false =>
              have hc : stepCore (.mainStep wr) c = { c with main := .waitChild } := by
                simp [stepCore, hE, hM, hA]
              rw [hc]
              refine ⟨by simpa [mainPast] using hLock, hWL, ⟨w, hw, hRW, hRS⟩, ?_, hOrd⟩
              rw [hSD]
              simp [shutProgress, shutdownSeq, hA]
      | waitChild =>
          have hc : stepCore (.mainStep wr) c = c := by simp [stepCore, hE, hM]
          rw [hc]; exact ⟨hLock, hWL, ⟨w, hw, hRW, hRS⟩, hSD, hOrd⟩
  | childExit r =>
      cases hM : c.main with
      | waitChild =>
          have hc : stepCore (.childExit r) c =
              { c with exited := some (.code 0), waited := true } := by
            simp [stepCore, hE, hM]
          rw [hc]
          exact ⟨hLock, hWL, ⟨w, hw, hRW, hRS⟩, hSD, hOrd⟩
      | waitSignal =>
          have hc : stepCore (.childExit r) c = c := by simp [stepCore, hE, hM]
          rw [hc]; exact ⟨hLock, hWL, ⟨w, hw, hRW, hRS⟩, hSD, hOrd⟩
      | waitLock =>
          have hc : stepCore (.childExit r) c = c := by simp [stepCore, hE, hM]
          rw [hc]; exact ⟨hLock, hWL, ⟨w, hw, hRW, hRS⟩, hSD, hOrd⟩
      | seqBefore =>
          have hc : stepCore (.childExit r) c = c := by simp [stepCore, hE, hM]
          rw [hc]; exact ⟨hLock, hWL, ⟨w, hw, hRW, hRS⟩, hSD, hOrd⟩
      | seqCmd =>
          have hc : stepCore (.childExit r) c = c := by simp [stepCore, hE, hM]
          rw [hc]; exact ⟨hLock, hWL, ⟨w, hw, hRW, hRS⟩, hSD, hOrd⟩
      | seqAfter =>
          have hc : stepCore (.childExit r) c = c := by simp [stepCore, hE, hM]
          rw [hc]; exact ⟨hLock, hWL, ⟨w, hw, hRW, hRS⟩, hSD, hOrd⟩



theorem inv_run {L : List (List Char)} (s : State) (sched : List Action)
    (h : Inv L s.core) : Inv L (run s sched).core := by
  induction sched generalizing s with
  | nil => exact h
  | cons a rest ih => exact ih (step a s) (inv_step L a s.core h)

theorem runCore_cfg (c : Core) (sched : List Action) : (runCore c sched).cfg = c.cfg := by
  induction sched generalizing c with
  | nil => rfl
  | cons a rest ih => exact (ih (stepCore a c)).trans (stepCore_cfg a c)

theorem runCore_append (c : Core) (l₁ l₂ : List Action) :
    runCore c (l₁ ++ l₂) = runCore (runCore c l₁) l₂ := by
  unfold runCore
  exact List.foldl_append ..

/-- Once the sequencer holds the mutex, every step keeps it held and the
relay writes nothing further. -/
theorem seqHolds_step (a : Action) (c : Core) (h : SeqHolds c) :
    SeqHolds (stepCore a c) ∧ relayWrites (stepCore a c).writes = relayWrites c.writes := by
  obtain ⟨hL, hW⟩ := h
  cases hE : c.exited with
  | some e => rw [stepCore_exited a c hE]; exact ⟨⟨hL, hW⟩, rfl⟩
  | none =>
  cases a with
  | relayStep wr =>
      cases hR : c.relay with
      | reading =>
          cases hLn : c.stdinLines with
          | nil =>
              have hc : stepCore (.relayStep wr) c = { c with relay := .done } := by
                simp [stepCore, hE, hR, hLn]
              rw [hc]
              exact ⟨⟨hL, by simp⟩, rfl⟩
          | cons l rest =>
              have hc : stepCore (.relayStep wr) c =
                  { c with relay := .waitingLock (l ++ [nl]), stdinLines := rest } := by
                simp [stepCore, hE, hR, hLn]
              rw [hc]
              exact ⟨⟨hL, by simp⟩, rfl⟩
      | waitingLock p =>
          have hc : stepCore (.relayStep wr) c = c := by
            simp [stepCore, hE, hR, hL]
          rw [hc]
          exact ⟨⟨hL, hW⟩, rfl⟩
      | writing p => exact absurd hR (hW p)
      | done =>
          have hc : stepCore (.relayStep wr) c = c := by simp [stepCore, hE, hR]
          rw [hc]; exact ⟨⟨hL, hW⟩, rfl⟩
  | sigterm =>
      cases hM : c.main with
      | waitSignal =>
          have hc : stepCore .sigterm c = { c with main := .waitLock } := by
            simp [stepCore, hE, hM]
          rw [hc]; exact ⟨⟨hL, hW⟩, rfl⟩
      | waitLock =>
          have hc : stepCore .sigterm c = c := by simp [stepCore, hE, hM]
          rw [hc]; exact ⟨⟨hL, hW⟩, rfl⟩
      | seqBefore =>
          have hc : stepCore .sigterm c = c := by simp [stepCore, hE, hM]
          rw [hc]; exact ⟨⟨hL, hW⟩, rfl⟩
      | seqCmd =>
          have hc : stepCore .sigterm c = c := by simp [stepCore, hE, hM]
          rw [hc]; exact ⟨⟨hL, hW⟩, rfl⟩
      | seqAfter =>
          have hc : stepCore .sigterm c = c := by simp [stepCore, hE, hM]
          rw [hc]; exact ⟨⟨hL, hW⟩, rfl⟩
      | waitChild =>
          have hc : stepCore .sigterm c = c := by simp [stepCore, hE, hM]
          rw [hc]; exact ⟨⟨hL, hW⟩, rfl⟩
  | mainStep wr =>
      cases hM : c.main with
      | waitSignal =>
          have hc : stepCore (.mainStep wr) c = c := by simp [stepCore, hE, hM]
          rw [hc]; exact ⟨⟨hL, hW⟩, rfl⟩
      | waitLock =>
          have hc : stepCore (.mainStep wr) c = c := by
            simp [stepCore, hE, hM, hL]
          rw [hc]; exact ⟨⟨hL, hW⟩, rfl⟩
      | seqBefore =>
          cases hB : c.cfg.newlineBeforeKill with
          | true =>
              cases wr with
              | ok =>
                  have hc : stepCore (.mainStep .ok) c =
                      { c with writes := c.writes ++ [.shutWrite [nl]], main := .seqCmd } := by
                    simp [stepCore, hE, hM, hB]
                  rw [hc]
                  exact ⟨⟨hL, hW⟩, relayWrites_append_shut c.writes [nl]⟩
              | fail e' =>
                  have hc : stepCore (.mainStep (.fail e')) c =
                      { c with exited := some (.code 1) } := by
                    simp [stepCore, hE, hM, hB]
                  rw [hc]; exact ⟨⟨hL, hW⟩, rfl⟩
          | false =>
              have hc : stepCore (.mainStep wr) c = { c with main := .seqCmd } := by
                simp [stepCore, hE, hM, hB]
              rw [hc]; exact ⟨⟨hL, hW⟩, rfl⟩
      | seqCmd =>
          cases hK : c.cfg.killCommand with
          | some cmd =>
              cases wr with
              | ok =>
                  have hc : stepCore (.mainStep .ok) c =
                      { c with writes := c.writes ++ [.shutWrite cmd], main := .seqAfter } := by
                    simp [stepCore, hE, hM, hK]
                  rw [hc]
                  exact ⟨⟨hL, hW⟩, relayWrites_append_shut c.writes cmd⟩
              | fail e' =>
                  have hc : stepCore (.mainStep (.fail e')) c =
                      { c with exited := some (.code 1) } := by
                    simp [stepCore, hE, hM, hK]
                  rw [hc]; exact ⟨⟨hL, hW⟩, rfl⟩
          | none =>
              have hc : stepCore (.mainStep wr) c = { c with main := .seqAfter } := by
                simp [stepCore, hE, hM, hK]
              rw [hc]; exact ⟨⟨hL, hW⟩, rfl⟩
      | seqAfter =>
          cases hA : c.cfg.newlineAfterKill with
          | true =>
              cases wr with
              | ok =>
                  have hc : stepCore (.mainStep .ok) c =
                      { c with writes := c.writes ++ [.shutWrite [nl]], main := .waitChild } := by
                    simp [stepCore, hE, hM, hA]
                  rw [hc]
                  exact ⟨⟨hL, hW⟩, relayWrites_append_shut c.writes [nl]⟩
              | fail e' =>
                  have hc : stepCore (.mainStep (.fail e')) c =
                      { c with exited := some (.code 1) } := by
                    simp [stepCore, hE, hM, hA]
                  rw [hc]; exact ⟨⟨hL, hW⟩, rfl⟩
          | false =>
              have hc : stepCore (.mainStep wr) c = { c with main := .waitChild } := by
                simp [stepCore, hE, hM, hA]
              rw [hc]; exact ⟨⟨hL, hW⟩, rfl⟩
      | waitChild =>
          have hc : stepCore (.mainStep wr) c = c := by simp [stepCore, hE, hM]
          rw [hc]; exact ⟨⟨hL, hW⟩, rfl⟩
  | childExit r =>
      cases hM : c.main with
      | waitChild =>
          have hc : stepCore (.childExit r) c =
              { c with exited := some (.code 0), waited := true } := by
            simp [stepCore, hE, hM]
          rw [hc]; exact ⟨⟨hL, hW⟩, rfl⟩
      | waitSignal =>
          have hc : stepCore (.childExit r) c = c := by simp [stepCore, hE, hM]
          rw [hc]; exact ⟨⟨hL, hW⟩, rfl⟩
      | waitLock =>
          have hc : stepCore (.childExit r) c = c := by simp [stepCore, hE, hM]
          rw [hc]; exact ⟨⟨hL, hW⟩, rfl⟩
      | seqBefore =>
          have hc : stepCore (.childExit r) c = c := by simp [stepCore, hE, hM]
          rw [hc]; exact ⟨⟨hL, hW⟩, rfl⟩
      | seqCmd =>
          have hc : stepCore (.childExit r) c = c := by simp [stepCore, hE, hM]
          rw [hc]; exact ⟨⟨hL, hW⟩, rfl⟩
      | seqAfter =>
          have hc : stepCore (.childExit r) c = c := by simp [stepCore, hE, hM]
          rw [hc]; exact ⟨⟨hL, hW⟩, rfl⟩

theorem seqHolds_run (c : Core) (sched : List Action) (h : SeqHolds c) :
    SeqHolds (runCore c sched) ∧ relayWrites (runCore c sched).writes = relayWrites c.writes := by
  induction sched generalizing c with
  | nil => exact ⟨h, rfl⟩
  | cons a rest ih =>
      obtain ⟨h₁, h₂⟩ := seqHolds_step a c h
      obtain ⟨h₃, h₄⟩ := ih (stepCore a c) h₁
      exact ⟨h₃, h₄.trans h₂⟩

/-- After the shutdown sequence is complete, no step changes the write log
and the main flow stays at `child.await`. -/
theorem quiesced_step (a : Action) (c : Core) (h : Quiesced c) :
    Quiesced (stepCore a c) ∧ (stepCore a c).writes = c.writes := by
  obtain ⟨hM, hL, hW⟩ := h
  cases hE : c.exited with
  | some e => rw [stepCore_exited a c hE]; exact ⟨⟨hM, hL, hW⟩, rfl⟩
  | none =>
  cases a with
  | relayStep wr =>
      cases hR : c.relay with
      | reading =>
          cases hLn : c.stdinLines with
          | nil =>
              have hc : stepCore (.relayStep wr) c = { c with relay := .done } := by
                simp [stepCore, hE, hR, hLn]
              rw [hc]
              exact ⟨⟨hM, hL, by simp⟩, rfl⟩
          | cons l rest =>
              have hc : stepCore (.relayStep wr) c =
                  { c with relay := .waitingLock (l ++ [nl]), stdinLines := rest } := by
                simp [stepCore, hE, hR, hLn]
              rw [hc]
              exact ⟨⟨hM, hL, by simp⟩, rfl⟩
      | waitingLock p =>
          have hc : stepCore (.relayStep wr) c = c := by
            simp [stepCore, hE, hR, hL]
          rw [hc]; exact ⟨⟨hM, hL, hW⟩, rfl⟩
      | writing p => exact absurd hR (hW p)
      | done =>
          have hc : stepCore (.relayStep wr) c = c := by simp [stepCore, hE, hR]
          rw [hc]; exact ⟨⟨hM, hL, hW⟩, rfl⟩
  | sigterm =>
      have hc : stepCore .sigterm c = c := by simp [stepCore, hE, hM]
      rw [hc]; exact ⟨⟨hM, hL, hW⟩, rfl⟩
  | mainStep wr =>
      have hc : stepCore (.mainStep wr) c = c := by simp [stepCore, hE, hM]
      rw [hc]; exact ⟨⟨hM, hL, hW⟩, rfl⟩
  | childExit r =>
      have hc : stepCore (.childExit r) c =
          { c with exited := some (.code 0), waited := true } := by
        simp [stepCore, hE, hM]
      rw [hc]; exact ⟨⟨hM, hL, hW⟩, rfl⟩

theorem quiesced_run (c : Core) (sched : List Action) (h : Quiesced c) :
    Quiesced (runCore c sched) ∧ (runCore c sched).writes = c.writes := by
  induction sched generalizing c with
  | nil => exact ⟨h, rfl⟩
  | cons a rest ih =>
      obtain ⟨h₁, h₂⟩ := quiesced_step a c h
      obtain ⟨h₃, h₄⟩ := ih (stepCore a c) h₁
      exact ⟨h₃, h₄.trans h₂⟩

/-- From the global invariant: once the mutex belongs to the sequencer,
the relay cannot be mid-write. -/
theorem inv_seqHolds {L : List (List Char)} {c : Core} (h : Inv L c)
    (hL : c.lock = .sequencer) : SeqHolds c := by
  refine ⟨hL, fun p hp => ?_⟩
  have := h.writingLock p hp
  rw [hL] at this
  exact absurd this (by simp)

/-- From the global invariant: at `child.await` the shutdown path holds
the mutex and the relay is quiescent. -/
theorem inv_quiesced {L : List (List Char)} {c : Core} (h : Inv L c)
    (hM : c.main = .waitChild) : Quiesced c := by
  have hL : c.lock = .sequencer := by
    rw [h.lockSeq, hM]
    rfl
  exact ⟨hM, inv_seqHolds h hL⟩

/-- A second SIGTERM delivery once the main flow is past `recv().await`
changes nothing at all. -/
theorem sigterm_noop (s : State) (h : s.core.main ≠ .waitSignal) :
    step .sigterm s = s := by
  have hcore : stepCore .sigterm s.core = s.core := by
    cases hE : s.core.exited with
    | some e => exact stepCore_exited _ _ hE
    | none =>
        cases hM : s.core.main with
        | waitSignal => exact absurd hM h
        | waitLock => simp [stepCore, hE, hM]
        | seqBefore => simp [stepCore, hE, hM]
        | seqCmd => simp [stepCore, hE, hM]
        | seqAfter => simp [stepCore, hE, hM]
        | waitChild => simp [stepCore, hE, hM]
  have hdiag : stepDiags .sigterm s.debug s.core = [] := by
    cases hE : s.core.exited with
    | some e => simp [stepDiags, hE]
    | none =>
        cases hM : s.core.main with
        | waitSignal => exact absurd hM h
        | waitLock => simp [stepDiags, hE, hM]
        | seqBefore => simp [stepDiags, hE, hM]
        | seqCmd => simp [stepDiags, hE, hM]
        | seqAfter => simp [stepDiags, hE, hM]
        | waitChild => simp [stepDiags, hE, hM]
  show State.mk s.debug (stepCore .sigterm s.core) (s.stderr ++ stepDiags .sigterm s.debug s.core) = s
  rw [hcore, hdiag, List.append_nil]

/-- `program` is `run` from the state the startup phase produces. -/
theorem program_run (dbg : Bool) (cfg : Config) (spawnRes : Option (List Char))
    (stdinOk : Bool) (L : List (List Char)) (tl : StdinEnd) (sched : List Action) :
    program dbg cfg spawnRes stdinOk L tl sched =
      run (program dbg cfg spawnRes stdinOk L tl []) sched := by
  cases spawnRes with
  | some e => rfl
  | none =>
      by_cases hso : stdinOk
      · simp only [program, hso, if_true]
        rfl
      · simp only [program, hso, if_false]
        rfl



/-- A terminated process does nothing at all on any further step. -/
theorem step_frozen (a : Action) (t : State) {k : ExitKind}
    (h : t.core.exited = some k) : step a t = t := by
  have hdiag : stepDiags a t.debug t.core = [] := by
    unfold stepDiags
    rw [h]
  show State.mk t.debug (stepCore a t.core) (t.stderr ++ stepDiags a t.debug t.core) = t
  rw [stepCore_exited a t.core h, hdiag, List.append_nil]

/-- With the debug flag off, every diagnostic a step can emit is either a
fatal-error message or a relay stdin warning. -/
theorem stepDiags_nondebug (a : Action) (c : Core) :
    ∀ d ∈ stepDiags a false c, d.isFatal = true ∨ d.isRelayWarn = true := by
  intro d hd
  unfold stepDiags at hd
  repeat' split at hd
  all_goals simp_all [Diag.isFatal, Diag.isRelayWarn]

/-- With the debug flag off, any property of diagnostics holding initially
and of everything `stepDiags` emits holds of the whole run's stderr. -/
theorem run_stderr_all (P : Diag → Prop) (s : State) (sched : List Action)
    (hdbg : s.debug = false)
    (hstep : ∀ (a : Action) (c : Core), ∀ d ∈ stepDiags a false c, P d)
    (hall : ∀ d ∈ s.stderr, P d) : ∀ d ∈ (run s sched).stderr, P d := by
  induction sched generalizing s with
  | nil => exact hall
  | cons a rest ih =>
      refine ih (step a s) hdbg ?_
      intro d hd
      rcases List.mem_append.mp hd with hmem | hmem
      · exact hall d hmem
      · rw [hdbg] at hmem
        exact hstep a s.core d hmem



theorem inv_runCore {L : List (List Char)} (c : Core) (sched : List Action)
    (h : Inv L c) : Inv L (runCore c sched) := by
  induction sched generalizing c with
  | nil => exact h
  | cons a rest ih => exact ih (stepCore a c) (inv_step L a c h)

/-- With a successful startup, `program` is `run` from the freshly spawned
state. -/
theorem program_ok (dbg : Bool) (cfg : Config) (L : List (List Char)) (tl : StdinEnd)
    (sched : List Action) :
    program dbg cfg none true L tl sched =
      run ⟨dbg, initCore cfg L tl, if dbg then [.runningCommand] else []⟩ sched := rfl

theorem program_debug (dbg : Bool) (cfg : Config) (spawnRes : Option (List Char))
    (stdinOk : Bool) (L : List (List Char)) (tl : StdinEnd) (sched : List Action) :
    (program dbg cfg spawnRes stdinOk L tl sched).debug = dbg := by
  rw [program_run, run_debug]
  cases spawnRes with
  | some e => rfl
  | none =>
      by_cases hso : stdinOk
      · simp only [program, hso, if_true]
        rfl
      · simp only [program, hso, if_false]
        rfl

theorem inv_program (dbg : Bool) (cfg : Config) (L : List (List Char))
    (tl : StdinEnd) (sched : List Action) :
    Inv L (program dbg cfg none true L tl sched).core := by
  rw [program_ok, run_core]
  exact inv_runCore _ sched (inv_init cfg L tl)



/-- Claim C1 (amended): once `child.await` completes — whatever exit status
or wait error it reports — the wrapper exits with code 0 (main.rs line 174),
not with the child's status and not with 1 on a wait failure. -/
theorem C1_exit_always_zero (s : State) (r : WaitRes)
    (h₁ : s.core.exited = none) (h₂ : s.core.main = .waitChild) :
    (step (.childExit r) s).core.exited = some (.code 0) ∧
    (step (.childExit r) s).core.waited = true := by
  have hc : stepCore (.childExit r) s.core =
      { s.core with exited := some (.code 0), waited := true } := by
    simp [stepCore, h₁, h₂]
  constructor <;> rw [step_core, hc]

/-- Witness for `C1_exit_always_zero` at a concrete state. -/
theorem C1_exit_always_zero_witness :
    stateAtWait.core.exited = none ∧ stateAtWait.core.main = .waitChild ∧
    (step (.childExit (.exited 7)) stateAtWait).core.exited = some (.code 0) ∧
    (step (.childExit (.exited 7)) stateAtWait).core.waited = true := by
  refine ⟨rfl, rfl, ?_⟩
  exact C1_exit_always_zero stateAtWait (.exited 7) rfl rfl

/-- Counterexample to claim C1 as stated: a run in which the child exits
with status 7 (and another in which the wait itself fails) while the
wrapper's exit code is 0 — not 7, and not 1. -/
theorem C1_counterexample :
    (program false cfgPlain none true [] .closed
        (schedShutdown ++ [.childExit (.exited 7)])).core.exited = some (.code 0) ∧
    (program false cfgPlain none true [] .closed
        (schedShutdown ++ [.childExit (.waitErr ['x'])])).core.exited = some (.code 0) ∧
    ExitKind.code 0 ≠ ExitKind.code 7 ∧ ExitKind.code 0 ≠ ExitKind.code 1 := by
  decide

/-- Claim C2: for every shutdown configuration, once the shutdown sequence
has completed (the main flow reached `child.await`), the shutdown path has
written exactly: one newline iff `newlineBeforeKill`, the command iff
present, one newline iff `newlineAfterKill`, in that order; no schedule
extension ever adds another write; and with no command and both newlines
enabled the shutdown path wrote exactly the two newline bytes. -/
theorem C2_shutdown_sequence (dbg : Bool) (cfg : Config) (L : List (List Char))
    (tl : StdinEnd) (sched sched' : List Action)
    (hdone : (program dbg cfg none true L tl sched).core.main = .waitChild) :
    shutWrites (program dbg cfg none true L tl sched).core.writes = shutdownSeq cfg ∧
    (program dbg cfg none true L tl (sched ++ sched')).core.writes =
      (program dbg cfg none true L tl sched).core.writes ∧
    (cfg.killCommand = none → cfg.newlineBeforeKill = true →
      cfg.newlineAfterKill = true →
      (shutWrites (program dbg cfg none true L tl sched).core.writes).flatten
        = [nl, nl]) := by
  have hInv := inv_program dbg cfg L tl sched
  have hcfg : (program dbg cfg none true L tl sched).core.cfg = cfg := by
    rw [program_ok, run_core, runCore_cfg]
    rfl
  have hshut : shutWrites (program dbg cfg none true L tl sched).core.writes =
      shutdownSeq cfg := by
    have hsd := hInv.shutDecomp
    rw [hcfg, hdone] at hsd
    exact hsd
  have hext : (program dbg cfg none true L tl (sched ++ sched')).core =
      runCore (program dbg cfg none true L tl sched).core sched' := by
    rw [program_ok dbg cfg L tl (sched ++ sched'), run_append, run_core,
      ← program_ok]
  refine ⟨hshut, ?_, ?_⟩
  · rw [hext]
    exact (quiesced_run _ sched' (inv_quiesced hInv hdone)).2
  · intro hk hb ha
    rw [hshut]
    simp [shutdownSeq, hk, hb, ha]

/-- Witness for `C2_shutdown_sequence` at a concrete run. -/
theorem C2_shutdown_sequence_witness :
    (program false cfgPlain none true [] .closed schedShutdown).core.main
      = .waitChild ∧
    shutWrites (program false cfgPlain none true [] .closed
      schedShutdown).core.writes = shutdownSeq cfgPlain := by
  refine ⟨by decide, ?_⟩
  exact (C2_shutdown_sequence false cfgPlain [] .closed schedShutdown []
    (by decide)).1

/-- Claim C3: once the shutdown path owns the mutex it never gives it back;
from then on the relay can never write again, and in every run the write
log is all of the relay's writes followed by all of the shutdown path's
writes — a relayed line is never interleaved with the shutdown sequence. -/
theorem C3_lock_never_released (dbg : Bool) (cfg : Config) (L : List (List Char))
    (tl : StdinEnd) (sched sched' : List Action)
    (hseq : (program dbg cfg none true L tl sched).core.lock = .sequencer) :
    (program dbg cfg none true L tl (sched ++ sched')).core.lock = .sequencer ∧
    relayWrites (program dbg cfg none true L tl (sched ++ sched')).core.writes =
      relayWrites (program dbg cfg none true L tl sched).core.writes ∧
    (program dbg cfg none true L tl (sched ++ sched')).core.writes =
      (relayWrites (program dbg cfg none true L tl
        (sched ++ sched')).core.writes).map WriteEv.relayWrite ++
      (shutWrites (program dbg cfg none true L tl
        (sched ++ sched')).core.writes).map WriteEv.shutWrite := by
  have hInv := inv_program dbg cfg L tl sched
  have hSH := inv_seqHolds hInv hseq
  have hext : (program dbg cfg none true L tl (sched ++ sched')).core =
      runCore (program dbg cfg none true L tl sched).core sched' := by
    rw [program_ok dbg cfg L tl (sched ++ sched'), run_append, run_core,
      ← program_ok]
  obtain ⟨⟨hL2, _⟩, hRW⟩ := seqHolds_run _ sched' hSH
  exact ⟨by rw [hext]; exact hL2, by rw [hext]; exact hRW,
    (inv_program dbg cfg L tl (sched ++ sched')).ordered⟩

/-- Witness for `C3_lock_never_released` at a concrete run: the sequencer
takes the mutex, then the relay tries to forward a pending line and cannot. -/
theorem C3_lock_never_released_witness :
    (program false cfgPlain none true [['h', 'i']] .closed
      [.sigterm, .mainStep .ok]).core.lock = .sequencer ∧
    relayWrites (program false cfgPlain none true [['h', 'i']] .closed
      ([.sigterm, .mainStep .ok] ++ [.relayStep .ok, .relayStep .ok])).core.writes =
    relayWrites (program false cfgPlain none true [['h', 'i']] .closed
      [.sigterm, .mainStep .ok]).core.writes := by
  refine ⟨by decide, ?_⟩
  exact (C3_lock_never_released false cfgPlain [['h', 'i']] .closed
    [.sigterm, .mainStep .ok] [.relayStep .ok, .relayStep .ok] (by decide)).2.1

/-- Claim C5: in every run, the relay's writes to the child's stdin are
exactly the first `w` lines read from the wrapper's stdin, each with its
line terminator appended, in order, one line per write. -/
theorem C5_relay_lines_in_order (dbg : Bool) (cfg : Config) (L : List (List Char))
    (tl : StdinEnd) (sched : List Action) :
    ∃ w, w ≤ L.length ∧
      relayWrites (program dbg cfg none true L tl sched).core.writes =
        (L.take w).map lineOut := by
  obtain ⟨w, hw, hRW, h⟩ := (inv_program dbg cfg L tl sched).relayDecomp
  exact ⟨w, hw, hRW⟩


/-- Claim C6: delivering the termination signal a second time after the
main flow has left `recv().await` (shutdown has begun) changes nothing:
the whole remaining run — writes, stderr, exit code — is as if the second
delivery had not happened. -/
theorem C6_second_sigterm_noop (dbg : Bool) (cfg : Config)
    (spawnRes : Option (List Char)) (stdinOk : Bool) (L : List (List Char))
    (tl : StdinEnd) (sched₁ sched₂ : List Action)
    (h : (program dbg cfg spawnRes stdinOk L tl sched₁).core.main ≠ .waitSignal) :
    program dbg cfg spawnRes stdinOk L tl (sched₁ ++ .sigterm :: sched₂) =
      program dbg cfg spawnRes stdinOk L tl (sched₁ ++ sched₂) := by
  have hnoop : step .sigterm (run (program dbg cfg spawnRes stdinOk L tl [])
      sched₁) = run (program dbg cfg spawnRes stdinOk L tl []) sched₁ := by
    apply sigterm_noop
    rw [← program_run]
    exact h
  rw [program_run dbg cfg spawnRes stdinOk L tl (sched₁ ++ .sigterm :: sched₂),
    program_run dbg cfg spawnRes stdinOk L tl (sched₁ ++ sched₂),
    run_append, run_append]
  show run (step .sigterm _) sched₂ = _
  rw [hnoop]

/-- Witness for `C6_second_sigterm_noop` at a concrete run. -/
theorem C6_second_sigterm_noop_witness :
    (program false cfgPlain none true [] .closed [.sigterm]).core.main
      ≠ .waitSignal ∧
    program false cfgPlain none true [] .closed ([.sigterm] ++ .sigterm ::
      [.mainStep .ok]) =
      program false cfgPlain none true [] .closed ([.sigterm] ++
        [.mainStep .ok]) := by
  refine ⟨by decide, ?_⟩
  exact C6_second_sigterm_noop false cfgPlain none true [] .closed [.sigterm]
    [.mainStep .ok] (by decide)

/-- Claim C7: a failing `write_all` to the child's stdin — in the relay or
in any of the three shutdown steps — terminates the whole process with exit
code 1 without adding the failed bytes to the write log, and a terminated
process never retries anything: every further step is a no-op. -/
theorem C7_write_error_fatal (s : State) (e : List Char)
    (h : s.core.exited = none) :
    (∀ p, s.core.relay = .writing p →
      (step (.relayStep (.fail e)) s).core.exited = some (.code 1) ∧
      (step (.relayStep (.fail e)) s).core.writes = s.core.writes) ∧
    (s.core.main = .seqBefore → s.core.cfg.newlineBeforeKill = true →
      (step (.mainStep (.fail e)) s).core.exited = some (.code 1) ∧
      (step (.mainStep (.fail e)) s).core.writes = s.core.writes) ∧
    (∀ cmd, s.core.main = .seqCmd → s.core.cfg.killCommand = some cmd →
      (step (.mainStep (.fail e)) s).core.exited = some (.code 1) ∧
      (step (.mainStep (.fail e)) s).core.writes = s.core.writes) ∧
    (s.core.main = .seqAfter → s.core.cfg.newlineAfterKill = true →
      (step (.mainStep (.fail e)) s).core.exited = some (.code 1) ∧
      (step (.mainStep (.fail e)) s).core.writes = s.core.writes) ∧
    (∀ (a : Action) (t : State) (k : ExitKind),
      t.core.exited = some k → step a t = t) := by
  refine ⟨?_, ?_, ?_, ?_, fun a t k hk => step_frozen a t hk⟩
  · intro p hp
    have hc : stepCore (.relayStep (.fail e)) s.core =
        { s.core with exited := some (.code 1) } := by
      simp [stepCore, h, hp]
    constructor <;> rw [step_core, hc]
  · intro hm hb
    have hc : stepCore (.mainStep (.fail e)) s.core =
        { s.core with exited := some (.code 1) } := by
      simp [stepCore, h, hm, hb]
    constructor <;> rw [step_core, hc]
  · intro cmd hm hk
    have hc : stepCore (.mainStep (.fail e)) s.core =
        { s.core with exited := some (.code 1) } := by
      simp [stepCore, h, hm, hk]
    constructor <;> rw [step_core, hc]
  · intro hm ha
    have hc : stepCore (.mainStep (.fail e)) s.core =
        { s.core with exited := some (.code 1) } := by
      simp [stepCore, h, hm, ha]
    constructor <;> rw [step_core, hc]

/-- Witness for `C7_write_error_fatal` at a concrete mid-write state. -/
theorem C7_write_error_fatal_witness :
    stateMidWrite.core.exited = none ∧
    (step (.relayStep (.fail ['x'])) stateMidWrite).core.exited
      = some (.code 1) ∧
    (step (.relayStep (.fail ['x'])) stateMidWrite).core.writes
      = stateMidWrite.core.writes := by
  refine ⟨rfl, ?_⟩
  exact (C7_write_error_fatal stateMidWrite ['x'] rfl).1 (['h', 'i'] ++ [nl]) rfl

/-- Claim C8: when the wrapper's stdin errors or closes, the relay task
terminates by itself: it emits its warning (a non-fatal diagnostic), and
the main flow's state, the mutex, the write log and the process's exit
status are untouched. -/
theorem C8_relay_termination_local (s : State) (wr : WriteRes)
    (h₁ : s.core.exited = none) (h₂ : s.core.relay = .reading)
    (h₃ : s.core.stdinLines = []) :
    (step (.relayStep wr) s).core.relay = .done ∧
    (step (.relayStep wr) s).core.main = s.core.main ∧
    (step (.relayStep wr) s).core.lock = s.core.lock ∧
    (step (.relayStep wr) s).core.writes = s.core.writes ∧
    (step (.relayStep wr) s).core.exited = none ∧
    (∃ d, d.isRelayWarn = true ∧
      (step (.relayStep wr) s).stderr = s.stderr ++ [d]) := by
  have hc : stepCore (.relayStep wr) s.core = { s.core with relay := .done } := by
    simp [stepCore, h₁, h₂, h₃]
  refine ⟨by rw [step_core, hc], by rw [step_core, hc], by rw [step_core, hc],
    by rw [step_core, hc], by rw [step_core, hc]; exact h₁, ?_⟩
  cases hend : s.core.stdinEnd with
  | closed =>
      refine ⟨.warnReadClosed, rfl, ?_⟩
      show s.stderr ++ stepDiags (.relayStep wr) s.debug s.core = _
      simp [stepDiags, h₁, h₂, h₃, hend]
  | ioError e =>
      refine ⟨.warnReadErr e, rfl, ?_⟩
      show s.stderr ++ stepDiags (.relayStep wr) s.debug s.core = _
      simp [stepDiags, h₁, h₂, h₃, hend]

/-- Witness for `C8_relay_termination_local` at a concrete state. -/
theorem C8_relay_termination_local_witness :
    stateAtWait.core.exited = none ∧ stateAtWait.core.relay = .reading ∧
    stateAtWait.core.stdinLines = [] ∧
    (step (.relayStep .ok) stateAtWait).core.relay = .done ∧
    (step (.relayStep .ok) stateAtWait).core.main = stateAtWait.core.main := by
  refine ⟨rfl, rfl, rfl, ?_⟩
  have h := C8_relay_termination_local stateAtWait .ok rfl rfl rfl
  exact ⟨h.1, h.2.1⟩


/-- Claim C4 (amended): with the debug flag off, every diagnostic the
wrapper emits is either a fatal-error message or one of the relay's stdin
warnings — and the relay's termination warning is emitted unconditionally,
whatever the debug flag (main.rs lines 19 and 27 are not guarded by
`if debug`). -/
theorem C4_diagnostics_amended (cfg : Config) (spawnRes : Option (List Char))
    (stdinOk : Bool) (L : List (List Char)) (tl : StdinEnd) (sched : List Action)
    (s : State) (h₁ : s.core.exited = none) (h₂ : s.core.relay = .reading)
    (h₃ : s.core.stdinLines = []) :
    (∀ d ∈ (program false cfg spawnRes stdinOk L tl sched).stderr,
      d.isFatal = true ∨ d.isRelayWarn = true) ∧
    (∃ d, d.isRelayWarn = true ∧
      (step (.relayStep .ok) s).stderr = s.stderr ++ [d]) := by
  constructor
  · rw [program_run]
    refine run_stderr_all _ _ sched
      (program_debug false cfg spawnRes stdinOk L tl []) stepDiags_nondebug ?_
    intro d hd
    cases spawnRes with
    | some e =>
        simp only [program, run] at hd
        simp at hd
        subst hd
        left
        rfl
    | none =>
        by_cases hso : stdinOk
        · simp only [program, hso, if_true, run] at hd
          simp at hd
        · simp only [program, hso, if_false, run] at hd
          simp at hd
          subst hd
          left
          rfl
  · cases hend : s.core.stdinEnd with
    | closed =>
        refine ⟨.warnReadClosed, rfl, ?_⟩
        show s.stderr ++ stepDiags (.relayStep .ok) s.debug s.core = _
        simp [stepDiags, h₁, h₂, h₃, hend]
    | ioError e =>
        refine ⟨.warnReadErr e, rfl, ?_⟩
        show s.stderr ++ stepDiags (.relayStep .ok) s.debug s.core = _
        simp [stepDiags, h₁, h₂, h₃, hend]

/-- Witness for `C4_diagnostics_amended` at a concrete run and state. -/
theorem C4_diagnostics_amended_witness :
    stateAtWait.core.exited = none ∧ stateAtWait.core.relay = .reading ∧
    stateAtWait.core.stdinLines = [] ∧
    (∀ d ∈ (program false cfgPlain none true [] .closed []).stderr,
      d.isFatal = true ∨ d.isRelayWarn = true) := by
  refine ⟨rfl, rfl, rfl, ?_⟩
  exact (C4_diagnostics_amended cfgPlain none true [] .closed [] stateAtWait
    rfl rfl rfl).1

/-- Counterexample to claim C4 as stated: with the debug flag off, the
relay's end-of-stream termination still prints its warning, which is not a
fatal-error message. -/
theorem C4_counterexample :
    (program false cfgPlain none true [] .closed [.relayStep .ok]).stderr
      = [.warnReadClosed] ∧
    Diag.isFatal .warnReadClosed = false ∧
    (program false cfgPlain none true [] .closed [.relayStep .ok]).debug
      = false := by
  decide

/-- Claim C9 (amended): if spawning the child fails the wrapper exits with
code 1 after an unconditional diagnostic, having written nothing to the
child and without ever reaching `child.await`; if the child's stdin handle
cannot be obtained the wrapper panics (terminates abnormally via `unwrap()`,
not with exit code 1), likewise without waiting. -/
theorem C9_startup_failure (dbg : Bool) (cfg : Config) (e : List Char)
    (L : List (List Char)) (tl : StdinEnd) (sched sched' : List Action) :
    (program dbg cfg (some e) true L tl sched).core.exited = some (.code 1) ∧
    Diag.spawnErr e ∈ (program dbg cfg (some e) true L tl sched).stderr ∧
    (program dbg cfg (some e) true L tl sched).core.waited = false ∧
    (program dbg cfg (some e) true L tl sched).core.writes = [] ∧
    (program dbg cfg none false L tl sched').core.exited = some .panicked ∧
    (program dbg cfg none false L tl sched').core.waited = false ∧
    Diag.panicMsg ∈ (program dbg cfg none false L tl sched').stderr := by
  have h₁ : program dbg cfg (some e) true L tl sched =
      run ⟨dbg, { initCore cfg L tl with exited := some (.code 1) },
        (if dbg then [Diag.runningCommand] else []) ++ [.spawnErr e]⟩ sched := rfl
  have h₂ : program dbg cfg none false L tl sched' =
      run ⟨dbg, { initCore cfg L tl with exited := some .panicked },
        (if dbg then [Diag.runningCommand] else []) ++ [.panicMsg]⟩ sched' := by
    by_cases hdbg : dbg <;> simp [program, hdbg]
  refine ⟨?_, ?_, ?_, ?_, ?_, ?_, ?_⟩
  · rw [h₁, run_exited _ sched rfl]
  · rw [h₁]
    exact mem_stderr_run _ sched (List.mem_append_right _ (by simp))
  · rw [h₁, run_exited _ sched rfl]
    rfl
  · rw [h₁, run_exited _ sched rfl]
    rfl
  · rw [h₂, run_exited _ sched' rfl]
  · rw [h₂, run_exited _ sched' rfl]
    rfl
  · rw [h₂]
    exact mem_stderr_run _ sched' (List.mem_append_right _ (by simp))

/-- Counterexample to claim C9 as stated: when the child's stdin handle is
unobtainable the wrapper panics rather than exiting with code 1. -/
theorem C9_counterexample :
    (program false cfgPlain none false [] .closed []).core.exited
      = some .panicked ∧
    some ExitKind.panicked ≠ some (ExitKind.code 1) := by
  decide

/-- Claim C10: two runs differing only in the debug flag have identical
debug-independent state throughout — in particular the same write log to
the child's stdin and the same exit code; the flag influences only the
stderr log. -/
theorem C10_debug_flag_noninterference (cfg : Config)
    (spawnRes : Option (List Char)) (stdinOk : Bool) (L : List (List Char))
    (tl : StdinEnd) (sched : List Action) (b₁ b₂ : Bool) :
    (program b₁ cfg spawnRes stdinOk L tl sched).core =
      (program b₂ cfg spawnRes stdinOk L tl sched).core ∧
    (program b₁ cfg spawnRes stdinOk L tl sched).core.writes =
      (program b₂ cfg spawnRes stdinOk L tl sched).core.writes ∧
    (program b₁ cfg spawnRes stdinOk L tl sched).core.exited =
      (program b₂ cfg spawnRes stdinOk L tl sched).core.exited := by
  have hcore : ∀ b : Bool, (program b cfg spawnRes stdinOk L tl sched).core =
      runCore (program b cfg spawnRes stdinOk L tl []).core sched := by
    intro b
    rw [program_run, run_core]
  have hinit : (program b₁ cfg spawnRes stdinOk L tl []).core =
      (program b₂ cfg spawnRes stdinOk L tl []).core := by
    cases spawnRes with
    | some e => rfl
    | none =>
        by_cases hso : stdinOk
        · simp only [program, hso, if_true]
          rfl
        · simp only [program, hso, if_false]
          rfl
  have h : (program b₁ cfg spawnRes stdinOk L tl sched).core =
      (program b₂ cfg spawnRes stdinOk L tl sched).core := by
    rw [hcore b₁, hinit, ← hcore b₂]
  exact ⟨h, by rw [h], by rw [h]⟩

end GameDockerWrapper
